import Mathlib

/-!
Verification of `scripts/utilities.py` from the moodRL repository.

The Python code works on numpy arrays; we embed matrices as lists of rows
(row = one posterior sample, columns = observations), real numbers standing
in for floats.  Stateful/fallible parts (pickle loading, dictionary key
access, numpy `ValueError`s) are embedded with `Except` over an error kind
type mirroring the spec's error taxonomy.
-/

namespace MoodRL

/-- A (samples × observations) log-likelihood matrix: list of sample rows. -/
abbrev Mat := List (List ℝ)

/-- Number of columns of a matrix, as numpy's `shape[1]` on a rectangular
array: the length of the first row. -/
def ncols (M : Mat) : ℕ := (M.headD []).length

/-- A matrix is rectangular when every row has length `ncols M`. -/
def Rect (M : Mat) : Prop := ∀ r ∈ M, r.length = ncols M

/-- Column `j` of the matrix (`M[:, j]` for a rectangular array). -/
def col (M : Mat) (j : ℕ) : List ℝ := M.map (fun r => r.getD j 0)

/-- numpy `mean` of a vector: sum divided by length. -/
noncomputable def npMean (l : List ℝ) : ℝ := l.sum / l.length

/-- numpy `var` of a vector with the default `ddof=0`: the population
variance, mean squared deviation from the mean. -/
noncomputable def npVar (l : List ℝ) : ℝ :=
  ((l.map (fun x => (x - npMean l) ^ 2)).sum) / l.length

/-- Python `WAIC(log_lik)` from `utilities.py`:
`lppd = np.log(np.exp(log_lik).mean(axis=0))`,
`pwaic = np.var(log_lik, axis=0)`, returning `lppd - pwaic`, one entry per
observation (column). -/
noncomputable def WAIC (log_lik : Mat) : List ℝ :=
  (List.range (ncols log_lik)).map
    (fun j => Real.log (npMean ((col log_lik j).map Real.exp)) - npVar (col log_lik j))

/-- A 4-D log-likelihood tensor indexed (sample, subject, block, trial). -/
abbrev Tensor4 := List (List (List (List ℝ)))

/-- A deserialized Stan fit: a mapping from variable name to a 4-D tensor
(`None` when the key is absent, numpy's `KeyError` case). -/
abbrev Fit := String → Option Tensor4

/-- The persisted fits on disk, keyed by model name: `None` models a fit
file that cannot be opened or deserialized. -/
abbrev FitStore := String → Option Fit

/-- Error kinds of the spec's taxonomy: `loadError` for a failed pickle
load, `missingKey` for a `KeyError` on the fit object, `invalidArgument`
for a Python `ValueError` (bad selector / concatenating non-arrays), and
`shapeMismatch` for ragged elpd arrays. -/
inductive PyErr
  | loadError
  | missingKey
  | invalidArgument
  | shapeMismatch
deriving DecidableEq

/-- Python `load_fit(model)`: open `stan_fits/<model>/StanFit.pickle` and
unpickle it; a missing or undeserializable file raises. -/
def load_fit (fits : FitStore) (model : String) : Except PyErr Fit :=
  match fits model with
  | some fit => .ok fit
  | none => .error .loadError

/-- Python `reshape(n_samp, n_subj*n_block*n_trial)`: row-major flattening of the
last three axes, sample axis unchanged; observation index runs
subject-major, then block, then trial. -/
def reshape2 (T : Tensor4) : Mat := T.map (fun s => s.flatten.flatten)

/-- Python `np.where(np.sum(Y_log_lik, axis=0), False, True)`: observation `j` is
missing iff its column sums to zero across samples. -/
def missing (M : Mat) (j : ℕ) : Prop := (col M j).sum = 0

noncomputable instance (M : Mat) (j : ℕ) : Decidable (missing M j) :=
  Real.decidableEq _ _

/-- The observation indices retained by `Y_log_lik[:, ~missing]`, in order. -/
noncomputable def keptIdx (M : Mat) : List ℕ :=
  (List.range (ncols M)).filter (fun j => !decide (missing M j))

/-- Python `Y_log_lik[:, ~missing]`: every sample row restricted to the retained
observation columns. -/
noncomputable def dropMissing (M : Mat) : Mat :=
  M.map (fun row => (keptIdx M).map (fun j => row.getD j 0))

/-- Python `_extract_log_lik(model_name, method)`: load the fit, and for each
requested channel pull the 4-D tensor, flatten it to 2-D, and (for the "y"
channel only) drop missing observations.  A channel that is not requested
stays `none` (the Python code's `False` placeholder). -/
noncomputable def _extract_log_lik (fits : FitStore) (model_name method : String) :
    Except PyErr (Option Mat × Option Mat) := do
  let extract ← load_fit fits model_name
  let yll : Option Mat ←
    if method = "y" ∨ method = "both" then
      match extract "Y_log_lik" with
      | some t => pure (some (dropMissing (reshape2 t)))
      | none => Except.error PyErr.missingKey
    else pure none
  let mll : Option Mat ←
    if method = "m" ∨ method = "both" then
      match extract "M_log_lik" with
      | some t => pure (some (reshape2 t))
      | none => Except.error PyErr.missingKey
    else pure none
  return (yll, mll)

/-- The `if on == 'y' ... elif ... else` block of `model_comparison`
defining `log_lik`: "y" and "m" take that channel, anything else reaches
`np.concatenate([yll, mll], axis=-1)`, which raises a `ValueError`
(an `invalidArgument` kind) unless both operands are arrays with equally
many sample rows. -/
def pickLogLik (chan : String) (yll mll : Option Mat) : Except PyErr Mat :=
  if chan = "y" then
    match yll with
    | some y => .ok y
    | none => .error .invalidArgument
  else if chan = "m" then
    match mll with
    | some m => .ok m
    | none => .error .invalidArgument
  else
    match yll, mll with
    | some y, some m =>
        if y.length = m.length then .ok (List.zipWith (· ++ ·) y m)
        else .error .invalidArgument
    | _, _ => .error .invalidArgument

/-- The metric dispatch of `model_comparison`: WAIC, the external
`psisloo` (whose second component is the pointwise elpd array), or a
`ValueError` for anything else. -/
noncomputable def computeMetric (psisloo : Mat → ℝ × List ℝ × List ℝ)
    (metric : String) (log_lik : Mat) : Except PyErr (List ℝ) :=
  if metric = "waic" then .ok (WAIC log_lik)
  else if metric = "loo" then .ok (psisloo log_lik).2.1
  else .error .invalidArgument

/-- One iteration of the `for model_name in [a,b]` loop of
`model_comparison`: extract, select the channel, compute the metric. -/
noncomputable def modelElpd (fits : FitStore) (psisloo : Mat → ℝ × List ℝ × List ℝ)
    (metric chan model_name : String) : Except PyErr (List ℝ) := do
  let (yll, mll) ← _extract_log_lik fits model_name chan
  let log_lik ← pickLogLik chan yll mll
  computeMetric psisloo metric log_lik

/-- Python `model_comparison(a, b, metric, on)`: run the loop over `[a, b]`, scale
by −2, sum each row, and compute the paired-difference standard error
`np.sqrt(elppd.shape[-1] * np.var(np.diff(elppd, axis=0)))`.  Stacking two
elpd arrays of different lengths into one 2-D array is numpy's
inhomogeneous-shape `ValueError`, the spec's `shapeMismatch`. -/
noncomputable def model_comparison (fits : FitStore)
    (psisloo : Mat → ℝ × List ℝ × List ℝ) (a b metric chan : String) :
    Except PyErr (ℝ × ℝ × ℝ) := do
  let elppd ← List.mapM (modelElpd fits psisloo metric chan) [a, b]
  match elppd with
  | [arr1, arr2] =>
    if arr1.length = arr2.length then
      let d1 := arr1.map (fun x => -2 * x)
      let d2 := arr2.map (fun x => -2 * x)
      let se := Real.sqrt (d2.length * npVar (List.zipWith (fun x y => x - y) d2 d1))
      pure (d1.sum, d2.sum, se)
    else Except.error PyErr.shapeMismatch
  | _ => Except.error PyErr.shapeMismatch

/-- Python `np.argmin`: index of the first element that is less than or equal to
every element of the list. -/
def argmin (l : List ℚ) : ℕ := l.findIdx (fun x => l.all (fun y => decide (x ≤ y)))

/-- Python `np.sort(arr)`: the sample in ascending order. -/
def sortedPts (arr : List ℚ) : List ℚ := arr.mergeSort (fun a b => decide (a ≤ b))

/-- Python `np.ceil(credMass * len(sortedPts)).astype(int)`: the number of order
statistics a credible window spans. -/
def ciIdxInc (arr : List ℚ) (credMass : ℚ) : ℕ :=
  (Int.ceil (credMass * (arr.length : ℚ))).toNat

/-- The list of candidate interval widths
`sortedPts[i + ciIdxInc] - sortedPts[i]` for `i` in `range(nCIs)`. -/
def ciWidth (arr : List ℚ) (credMass : ℚ) : List ℚ :=
  (List.range ((sortedPts arr).length - ciIdxInc arr credMass)).map
    (fun i => (sortedPts arr).getD (i + ciIdxInc arr credMass) 0 -
      (sortedPts arr).getD i 0)

/-- Python `HDIofMCMC(arr, credMass)`: sort the sample, slide a window of
`ceil(credMass * n)` order statistics, and return the endpoints of the
narrowest such window (`np.argmin` picks the first narrowest). -/
def HDIofMCMC (arr : List ℚ) (credMass : ℚ) : ℚ × ℚ :=
  ((sortedPts arr).getD (argmin (ciWidth arr credMass)) 0,
   (sortedPts arr).getD (argmin (ciWidth arr credMass) + ciIdxInc arr credMass) 0)

/-- Python `_shifted_wald_pdf(x, gamma, alpha, theta)`: the raw density formula,
dividing by `sqrt(2*pi*(x-theta)^3)` and by `2*(x-theta)`. -/
noncomputable def _shifted_wald_pdf (x gamma alpha theta : ℝ) : ℝ :=
  let tmp1 := alpha / Real.sqrt (2 * Real.pi * (x - theta) ^ 3)
  let tmp2 := (alpha - gamma * (x - theta)) ^ 2 / (2 * (x - theta))
  tmp1 * Real.exp (-1 * tmp2)

/-- Python `shifted_wald_pdf(x, gamma, alpha, theta)`: start from
`np.zeros_like(x)` and overwrite exactly the entries with `x - theta > 0`
with the raw density evaluated there. -/
noncomputable def shifted_wald_pdf (x : List ℝ) (gamma alpha theta : ℝ) : List ℝ :=
  x.map (fun xi => if xi - theta > 0 then _shifted_wald_pdf xi gamma alpha theta else 0)

/-! ### General helper lemmas -/

lemma map_eq_range_map {α β : Type _} (l : List α) (f : α → β) (d : α) :
    l.map f = (List.range l.length).map (fun i => f (l.getD i d)) := by
  refine List.ext_getElem (by simp) (fun i h1 h2 => ?_)
  simp only [List.getElem_map, List.getElem_range]
  rw [List.getD_eq_getElem l d (by simpa using h1)]

lemma getD_map_of_lt {α β : Type _} (l : List α) (f : α → β) (d : β) (i : ℕ)
    (h : i < l.length) : (l.map f).getD i d = f (l.get ⟨i, h⟩) := by
  rw [List.getD_eq_getElem (l.map f) d (by simpa using h)]
  simp

lemma length_col (M : Mat) (j : ℕ) : (col M j).length = M.length := by
  simp [col]

lemma npVar_of_const (l : List ℝ) (h : ∀ x ∈ l, ∀ y ∈ l, x = y) : npVar l = 0 := by
  cases l with
  | nil => simp [npVar, npMean]
  | cons a t =>
      have hall : ∀ x ∈ a :: t, x = a := fun x hx =>
        h x hx a (List.mem_cons_self a t)
      have hrep : a :: t = List.replicate (a :: t).length a :=
        List.eq_replicate_of_mem hall
      rw [hrep]
      set n := (a :: t).length with hn
      have hn0 : (n : ℝ) ≠ 0 := by
        have hne : n ≠ 0 := by simp [hn]
        exact_mod_cast hne
      have hmean : npMean (List.replicate n a) = a := by
        rw [npMean, List.sum_replicate, List.length_replicate, nsmul_eq_mul]
        exact mul_div_cancel_left₀ a hn0
      simp [npVar, hmean, List.map_replicate, sub_self]

lemma zipWith_sub_self (l : List ℝ) :
    List.zipWith (fun x y => x - y) l l = List.replicate l.length 0 := by
  induction l with
  | nil => simp
  | cons a t ih => simp [ih, List.replicate_succ]

lemma npVar_replicate_zero (n : ℕ) : npVar (List.replicate n (0 : ℝ)) = 0 :=
  npVar_of_const _ (by
    intro x hx y hy
    rw [List.eq_of_mem_replicate hx, List.eq_of_mem_replicate hy])

lemma flatten_length_uniform {α : Type _} (L : List (List α)) (n : ℕ)
    (h : ∀ l ∈ L, l.length = n) : L.flatten.length = L.length * n := by
  induction L with
  | nil => simp
  | cons a t ih =>
      have ha : a.length = n := h a (List.mem_cons_self a t)
      have ht : ∀ l ∈ t, l.length = n := fun l hl => h l (List.mem_cons_of_mem a hl)
      simp [ha, ih ht, Nat.succ_mul, Nat.add_comm]

lemma flatten_getD_uniform {α : Type _} (d : α) (L : List (List α)) (n : ℕ)
    (hn : ∀ l ∈ L, l.length = n) (i j : ℕ) (hi : i < L.length) (hj : j < n) :
    L.flatten.getD (i * n + j) d = (L.getD i []).getD j d := by
  induction L generalizing i with
  | nil => simp at hi
  | cons a t ih =>
      have ha : a.length = n := hn a (List.mem_cons_self a t)
      have ht : ∀ l ∈ t, l.length = n := fun l hl => hn l (List.mem_cons_of_mem a hl)
      cases i with
      | zero =>
          simp only [Nat.zero_mul, Nat.zero_add, List.flatten_cons, List.getD_cons_zero]
          rw [List.getD_append _ _ _ _ (by omega)]
      | succ i' =>
          have hi' : i' < t.length := by simpa using hi
          have harith : (i' + 1) * n + j = a.length + (i' * n + j) := by
            rw [ha]; ring
          simp only [List.flatten_cons, List.getD_cons_succ]
          rw [harith, List.getD_append_right _ _ _ _ (by omega)]
          have : a.length + (i' * n + j) - a.length = i' * n + j := by omega
          rw [this]
          exact ih ht i' hi'

lemma col_eq_range_map (M : Mat) (j : ℕ) :
    col M j = (List.range M.length).map (fun s => (M.getD s []).getD j 0) :=
  map_eq_range_map M (fun r => r.getD j 0) []

/-! ### Claims -/

/-- C1: for every log-likelihood matrix with at least one row, `WAIC`
returns a 1-D array of length equal to the number of observation columns,
whose j-th entry is the log of the across-sample mean of the exponentiated
log-likelihoods of column j, minus the across-sample population variance of
column j; the input's shape is untouched. -/
theorem C1_WAIC_shape_formula (M : Mat) (hrow : 0 < M.length) (hrect : Rect M) :
    (WAIC M).length = ncols M ∧
    ∀ j, j < ncols M →
      (WAIC M).getD j 0 =
        Real.log (((List.range M.length).map
            (fun s => Real.exp ((M.getD s []).getD j 0))).sum / M.length) -
        ((List.range M.length).map
            (fun s => ((M.getD s []).getD j 0 -
              ((List.range M.length).map (fun s => (M.getD s []).getD j 0)).sum /
                M.length) ^ 2)).sum / M.length := by
  constructor
  · simp [WAIC]
  · intro j hj
    rw [WAIC, getD_map_of_lt _ _ _ j (by simpa using hj)]
    simp only [List.get_eq_getElem, List.getElem_range]
    rw [npVar, npMean, npMean, col_eq_range_map M j]
    simp [List.map_map, Function.comp_def]

/-- Witness for C1 on the 1 × 2 matrix `[[1, 2]]`. -/
theorem C1_WAIC_witness : (WAIC [[(1 : ℝ), 2]]).length = ncols [[(1 : ℝ), 2]] :=
  (C1_WAIC_shape_formula [[(1 : ℝ), 2]] (by simp) (fun r hr => by
      simp only [List.mem_singleton] at hr
      simp [hr, ncols])).1

/-- C5: when every column of the matrix is constant across samples, the
WAIC penalty is 0 for every observation and WAIC is exactly the
per-observation log mean exponentiated log-likelihood; in particular
`WAIC [[-1,-2],[-1,-2]] = [-1,-2]`. -/
theorem C5_WAIC_zero_variance (M : Mat)
    (hconst : ∀ j, ∀ x ∈ col M j, ∀ y ∈ col M j, x = y) :
    (∀ j, npVar (col M j) = 0) ∧
    WAIC M = (List.range (ncols M)).map
      (fun j => Real.log (npMean ((col M j).map Real.exp))) ∧
    WAIC [[(-1 : ℝ), -2], [(-1 : ℝ), -2]] = [(-1 : ℝ), -2] := by
  have hv : ∀ j, npVar (col M j) = 0 := fun j => npVar_of_const _ (hconst j)
  refine ⟨hv, ?_, ?_⟩
  · rw [WAIC]
    exact List.map_congr_left (fun j _ => by rw [hv j, sub_zero])
  · have hc0 : col [[(-1 : ℝ), -2], [(-1 : ℝ), -2]] 0 = [(-1 : ℝ), -1] := by
      simp [col]
    have hc1 : col [[(-1 : ℝ), -2], [(-1 : ℝ), -2]] 1 = [(-2 : ℝ), -2] := by
      simp [col]
    have hm0 : npMean ((col [[(-1 : ℝ), -2], [(-1 : ℝ), -2]] 0).map Real.exp) =
        Real.exp (-1) := by
      rw [hc0]
      show (Real.exp (-1) + (Real.exp (-1) + 0)) / (2 : ℕ) = Real.exp (-1)
      push_cast
      ring
    have hm1 : npMean ((col [[(-1 : ℝ), -2], [(-1 : ℝ), -2]] 1).map Real.exp) =
        Real.exp (-2) := by
      rw [hc1]
      show (Real.exp (-2) + (Real.exp (-2) + 0)) / (2 : ℕ) = Real.exp (-2)
      push_cast
      ring
    have hv0 : npVar (col [[(-1 : ℝ), -2], [(-1 : ℝ), -2]] 0) = 0 := by
      rw [hc0]
      refine npVar_of_const _ (fun x hx y hy => ?_)
      simp only [List.mem_cons, List.mem_singleton, List.not_mem_nil, or_false] at hx hy
      rcases hx with h | h <;> rcases hy with h' | h' <;> simp [h, h']
    have hv1 : npVar (col [[(-1 : ℝ), -2], [(-1 : ℝ), -2]] 1) = 0 := by
      rw [hc1]
      refine npVar_of_const _ (fun x hx y hy => ?_)
      simp only [List.mem_cons, List.mem_singleton, List.not_mem_nil, or_false] at hx hy
      rcases hx with h | h <;> rcases hy with h' | h' <;> simp [h, h']
    have hn : ncols [[(-1 : ℝ), -2], [(-1 : ℝ), -2]] = 2 := by simp [ncols]
    rw [WAIC, hn]
    norm_num [List.range_succ, hm0, hm1, hv0, hv1, Real.log_exp]

/-- Witness for C5 on the constant-column matrix `[[-1,-2],[-1,-2]]`. -/
theorem C5_WAIC_witness :
    npVar (col [[(-1 : ℝ), -2], [(-1 : ℝ), -2]] 0) = 0 ∧
    WAIC [[(-1 : ℝ), -2], [(-1 : ℝ), -2]] = [(-1 : ℝ), -2] := by
  have hconst : ∀ j, ∀ x ∈ col [[(-1 : ℝ), -2], [(-1 : ℝ), -2]] j,
      ∀ y ∈ col [[(-1 : ℝ), -2], [(-1 : ℝ), -2]] j, x = y := by
    intro j x hx y hy
    simp only [col, List.map_cons, List.map_nil, List.mem_cons, List.mem_singleton,
      List.not_mem_nil, or_false] at hx hy
    rcases hx with h | h <;> rcases hy with h' | h' <;> simp [h, h']
  exact ⟨(C5_WAIC_zero_variance _ hconst).1 0, (C5_WAIC_zero_variance _ hconst).2.2⟩

/-- C10: `shifted_wald_pdf` returns an array of the same shape as `x`,
equal to 0 wherever `x - theta <= 0`; the raw density formula is only used
where `x - theta > 0`, and there its divisor `x - theta` is nonzero and the
radicand `2*pi*(x-theta)^3` is positive. -/
theorem C10_shifted_wald_support (x : List ℝ) (gamma alpha theta : ℝ) :
    (shifted_wald_pdf x gamma alpha theta).length = x.length ∧
    ∀ i, i < x.length →
      (x.getD i 0 - theta ≤ 0 →
        (shifted_wald_pdf x gamma alpha theta).getD i 0 = 0) ∧
      (0 < x.getD i 0 - theta →
        (shifted_wald_pdf x gamma alpha theta).getD i 0 =
          _shifted_wald_pdf (x.getD i 0) gamma alpha theta ∧
        x.getD i 0 - theta ≠ 0 ∧ 0 < 2 * Real.pi * (x.getD i 0 - theta) ^ 3) := by
  constructor
  · simp [shifted_wald_pdf]
  · intro i hi
    have hgd : (shifted_wald_pdf x gamma alpha theta).getD i 0 =
        (if x.getD i 0 - theta > 0 then
          _shifted_wald_pdf (x.getD i 0) gamma alpha theta else 0) := by
      rw [shifted_wald_pdf, getD_map_of_lt _ _ _ i hi]
      rw [List.get_eq_getElem, ← List.getD_eq_getElem x 0 hi]
    constructor
    · intro hle
      rw [hgd, if_neg (by linarith)]
    · intro hpos
      exact ⟨by rw [hgd, if_pos hpos], by linarith,
        mul_pos (mul_pos two_pos Real.pi_pos) (pow_pos hpos 3)⟩

/-- Witness for C10 at `x = [0, 3]`, `gamma = alpha = theta = 1`: the entry
below the support is zero and the entry above is the raw density. -/
theorem C10_shifted_wald_witness :
    (shifted_wald_pdf [(0 : ℝ), 3] 1 1 1).getD 0 0 = 0 ∧
    (shifted_wald_pdf [(0 : ℝ), 3] 1 1 1).getD 1 0 = _shifted_wald_pdf 3 1 1 1 := by
  have h := C10_shifted_wald_support [(0 : ℝ), 3] 1 1 1
  refine ⟨(h.2 0 (by norm_num)).1 (by norm_num), ?_⟩
  have h2 := ((h.2 1 (by norm_num)).2 (by norm_num)).1
  simpa using h2

/-! ### Evaluation lemmas for the extractor -/

lemma extract_both_eq (fits : FitStore) (name : String) (fit : Fit) (Ty Tm : Tensor4)
    (hf : fits name = some fit) (hy : fit "Y_log_lik" = some Ty)
    (hm : fit "M_log_lik" = some Tm) :
    _extract_log_lik fits name "both" =
      .ok (some (dropMissing (reshape2 Ty)), some (reshape2 Tm)) := by
  simp [_extract_log_lik, load_fit, hf, hy, hm, bind, Except.bind, pure, Except.pure]

lemma extract_y_eq (fits : FitStore) (name : String) (fit : Fit) (Ty : Tensor4)
    (hf : fits name = some fit) (hy : fit "Y_log_lik" = some Ty) :
    _extract_log_lik fits name "y" = .ok (some (dropMissing (reshape2 Ty)), none) := by
  simp [_extract_log_lik, load_fit, hf, hy, bind, Except.bind, pure, Except.pure]

lemma extract_m_eq (fits : FitStore) (name : String) (fit : Fit) (Tm : Tensor4)
    (hf : fits name = some fit) (hm : fit "M_log_lik" = some Tm) :
    _extract_log_lik fits name "m" = .ok (none, some (reshape2 Tm)) := by
  simp [_extract_log_lik, load_fit, hf, hm, bind, Except.bind, pure, Except.pure]

lemma extract_load_fail (fits : FitStore) (name method : String)
    (hf : fits name = none) :
    _extract_log_lik fits name method = .error .loadError := by
  simp [_extract_log_lik, load_fit, hf, bind, Except.bind]

/-! ### Concrete fixtures for witnesses -/

/-- A 2-sample, 1-subject, 1-block, 2-trial Y tensor whose second trial
column is uniformly zero (missing). -/
noncomputable def Tysmall : Tensor4 := [[[[(-1 : ℝ), 0]]], [[[(-1 : ℝ), 0]]]]

/-- A 2-sample, 1-subject, 1-block, 1-trial M tensor. -/
noncomputable def Tmsmall : Tensor4 := [[[[(-3 : ℝ)]]], [[[(-3 : ℝ)]]]]

/-- A fit holding both log-likelihood channels. -/
noncomputable def fit0 : Fit := fun key =>
  if key = "Y_log_lik" then some Tysmall
  else if key = "M_log_lik" then some Tmsmall
  else none

/-- A fit store with a single model named "mod". -/
noncomputable def fits0 : FitStore := fun nm => if nm = "mod" then some fit0 else none

lemma reshape_Tysmall : reshape2 Tysmall = [[(-1 : ℝ), 0], [(-1 : ℝ), 0]] := by
  simp [reshape2, Tysmall]

lemma reshape_Tmsmall : reshape2 Tmsmall = [[(-3 : ℝ)], [(-3 : ℝ)]] := by
  simp [reshape2, Tmsmall]

lemma dropMissing_Tysmall : dropMissing (reshape2 Tysmall) = [[(-1 : ℝ)], [(-1 : ℝ)]] := by
  rw [reshape_Tysmall]
  have h0 : ¬ missing [[(-1 : ℝ), 0], [(-1 : ℝ), 0]] 0 := by
    norm_num [missing, col]
  have h1 : missing [[(-1 : ℝ), 0], [(-1 : ℝ), 0]] 1 := by
    norm_num [missing, col]
  have hk : keptIdx [[(-1 : ℝ), 0], [(-1 : ℝ), 0]] = [0] := by
    simp [keptIdx, ncols, List.range_succ, List.filter_cons, h0, h1]
  simp [dropMissing, hk]

/-- C7: the extractor called with channel "both" returns two present
matrices; with "y" a present first and absent second component; with "m"
an absent first and present second component. -/
theorem C7_extract_channels (fits : FitStore) (name : String) (fit : Fit)
    (hf : fits name = some fit) :
    (∀ Ty Tm, fit "Y_log_lik" = some Ty → fit "M_log_lik" = some Tm →
      ∃ y m : Mat, _extract_log_lik fits name "both" = .ok (some y, some m)) ∧
    (∀ Ty, fit "Y_log_lik" = some Ty →
      ∃ y : Mat, _extract_log_lik fits name "y" = .ok (some y, none)) ∧
    (∀ Tm, fit "M_log_lik" = some Tm →
      ∃ m : Mat, _extract_log_lik fits name "m" = .ok (none, some m)) :=
  ⟨fun Ty Tm hy hm => ⟨_, _, extract_both_eq fits name fit Ty Tm hf hy hm⟩,
    fun Ty hy => ⟨_, extract_y_eq fits name fit Ty hf hy⟩,
    fun Tm hm => ⟨_, extract_m_eq fits name fit Tm hf hm⟩⟩

/-- Witness for C7 on the concrete one-model fit store. -/
theorem C7_extract_witness :
    (∃ y m : Mat, _extract_log_lik fits0 "mod" "both" = .ok (some y, some m)) ∧
    (∃ y : Mat, _extract_log_lik fits0 "mod" "y" = .ok (some y, none)) ∧
    (∃ m : Mat, _extract_log_lik fits0 "mod" "m" = .ok (none, some m)) := by
  have h := C7_extract_channels fits0 "mod" fit0 (by simp [fits0])
  exact ⟨h.1 Tysmall Tmsmall (by simp [fit0]) (by simp [fit0]),
    h.2.1 Tysmall (by simp [fit0]), h.2.2 Tmsmall (by simp [fit0])⟩

/-- C8: the extractor fails with `missingKey` when the requested channel's
key is absent from the fit, and with `loadError` when the fit cannot be
loaded; in each case the whole call returns an error, never a partial
result. -/
theorem C8_extract_failures (fits : FitStore) (name : String) :
    (∀ method, fits name = none →
      _extract_log_lik fits name method = .error .loadError) ∧
    (∀ fit, fits name = some fit → fit "Y_log_lik" = none →
      ∀ method, method = "y" ∨ method = "both" →
        _extract_log_lik fits name method = .error .missingKey) ∧
    (∀ fit, fits name = some fit → fit "M_log_lik" = none →
      _extract_log_lik fits name "m" = .error .missingKey) ∧
    (∀ fit Ty, fits name = some fit → fit "Y_log_lik" = some Ty →
      fit "M_log_lik" = none →
      _extract_log_lik fits name "both" = .error .missingKey) := by
  refine ⟨fun method hf => extract_load_fail fits name method hf,
    fun fit hf hy method hmethod => ?_, fun fit hf hm => ?_,
    fun fit Ty hf hy hm => ?_⟩
  · rcases hmethod with h | h <;> subst h <;>
      simp [_extract_log_lik, load_fit, hf, hy, bind, Except.bind]
  · simp [_extract_log_lik, load_fit, hf, hm, bind, Except.bind, pure, Except.pure]
  · simp [_extract_log_lik, load_fit, hf, hy, hm, bind, Except.bind, pure, Except.pure]

/-- Witness for C8: a store with no fits fails to load, and a fit missing
the M channel makes a "m"-channel extraction fail with `missingKey`. -/
theorem C8_extract_witness :
    _extract_log_lik (fun _ => none) "mod" "both" = .error .loadError ∧
    _extract_log_lik (fun nm => if nm = "mod" then some (fun _ => none) else none)
      "mod" "m" = .error .missingKey := by
  refine ⟨(C8_extract_failures (fun _ => none) "mod").1 "both" rfl, ?_⟩
  exact (C8_extract_failures _ "mod").2.2.1 (fun _ => none) (by simp) rfl

/-- C2: for each channel selector in {"y","both"}, the "y" matrix is the
`Y_log_lik` tensor flattened over its last three axes in subject-major,
then block, then trial order (sample axis unchanged) with exactly the
zero-sum observation columns removed, and the "m" matrix — requested only
by "both" — is the analogously flattened `M_log_lik` tensor with no
columns removed.  The conjuncts spell out the flattening index order, that
the retained column indices are exactly the non-zero-sum ones in
increasing order, and that retained columns are copied unchanged. -/
theorem C2_extract_content (fits : FitStore) (name : String) (fit : Fit)
    (Ty Tm : Tensor4) (hf : fits name = some fit)
    (hy : fit "Y_log_lik" = some Ty) (hm : fit "M_log_lik" = some Tm)
    (n_subj n_block n_trial : ℕ)
    (hsub : ∀ S ∈ Ty, S.length = n_subj)
    (hblk : ∀ S ∈ Ty, ∀ B ∈ S, B.length = n_block)
    (htr : ∀ S ∈ Ty, ∀ B ∈ S, ∀ tr ∈ B, tr.length = n_trial) :
    _extract_log_lik fits name "both" =
      .ok (some (dropMissing (reshape2 Ty)), some (reshape2 Tm)) ∧
    _extract_log_lik fits name "y" =
      .ok (some (dropMissing (reshape2 Ty)), none) ∧
    (reshape2 Ty).length = Ty.length ∧
    (reshape2 Tm).length = Tm.length ∧
    (dropMissing (reshape2 Ty)).length = (reshape2 Ty).length ∧
    (∀ s u b t, s < Ty.length → u < n_subj → b < n_block → t < n_trial →
      ((reshape2 Ty).getD s []).getD ((u * n_block + b) * n_trial + t) 0 =
        (((Ty.getD s []).getD u []).getD b []).getD t 0) ∧
    (∀ M : Mat, ∀ j, j ∈ keptIdx M ↔ j < ncols M ∧ ¬ missing M j) ∧
    (∀ M : Mat, List.Sorted (· < ·) (keptIdx M)) ∧
    (∀ M : Mat, ∀ i, i < (keptIdx M).length →
      col (dropMissing M) i = col M ((keptIdx M).getD i 0)) ∧
    (∀ M : Mat, ∀ row ∈ dropMissing M, row.length = (keptIdx M).length) := by
  refine ⟨extract_both_eq fits name fit Ty Tm hf hy hm,
    extract_y_eq fits name fit Ty hf hy, by simp [reshape2],
    by simp [reshape2], by simp [dropMissing], ?_, ?_, ?_, ?_, ?_⟩
  · intro s u b t hs hu hb ht
    have hSmem : Ty.getD s [] ∈ Ty := by
      rw [List.getD_eq_getElem Ty [] hs]
      exact List.getElem_mem hs
    set S := Ty.getD s [] with hS
    have hSlen : S.length = n_subj := hsub S hSmem
    have hBlen : ∀ B ∈ S, B.length = n_block := hblk S hSmem
    have htlen : ∀ l ∈ S.flatten, l.length = n_trial := by
      intro l hl
      rcases List.mem_flatten.mp hl with ⟨B, hB, hlB⟩
      exact htr S hSmem B hB l hlB
    have hflen : S.flatten.length = n_subj * n_block := by
      rw [flatten_length_uniform S n_block hBlen, hSlen]
    have hidx : u * n_block + b < S.flatten.length := by
      rw [hflen]
      have h1 : u * n_block + b < (u + 1) * n_block := by
        rw [Nat.succ_mul]
        omega
      have h2 : (u + 1) * n_block ≤ n_subj * n_block :=
        Nat.mul_le_mul_right n_block (by omega)
      omega
    have hrow : (reshape2 Ty).getD s [] = S.flatten.flatten := by
      rw [reshape2, getD_map_of_lt _ _ _ s hs, List.get_eq_getElem,
        ← List.getD_eq_getElem Ty [] hs]
    rw [hrow, flatten_getD_uniform 0 S.flatten n_trial htlen _ t hidx ht,
      flatten_getD_uniform ([] : List ℝ) S n_block hBlen u b (by omega) hb]
  · intro M j
    simp [keptIdx, List.mem_filter, List.mem_range]
  · intro M
    exact (List.pairwise_lt_range (ncols M)).filter _
  · intro M i hi
    rw [col, dropMissing, List.map_map, col]
    refine List.map_congr_left (fun row _ => ?_)
    simp only [Function.comp_apply]
    rw [getD_map_of_lt _ _ _ i hi, List.get_eq_getElem,
      ← List.getD_eq_getElem (keptIdx M) 0 hi]
  · intro M row hrow
    rw [dropMissing] at hrow
    rcases List.mem_map.mp hrow with ⟨r, _, hr⟩
    rw [← hr]
    simp

/-- Witness for C2: on the concrete fixture the extractor returns the
masked flattened Y matrix (for channels "both" and "y") and the unmasked
flattened M matrix (for "both"), and the masking concretely removes the
uniformly-zero second column. -/
theorem C2_extract_witness :
    _extract_log_lik fits0 "mod" "both" =
      .ok (some (dropMissing (reshape2 Tysmall)), some (reshape2 Tmsmall)) ∧
    _extract_log_lik fits0 "mod" "y" =
      .ok (some (dropMissing (reshape2 Tysmall)), none) ∧
    dropMissing (reshape2 Tysmall) = [[(-1 : ℝ)], [(-1 : ℝ)]] := by
  have h := C2_extract_content fits0 "mod" fit0 Tysmall Tmsmall (by simp [fits0])
    (by simp [fit0]) (by simp [fit0]) 1 1 2
    (by intro S hS; simp [Tysmall] at hS; simp [hS])
    (by intro S hS B hB; simp [Tysmall] at hS; subst hS; simp at hB; subst hB; simp)
    (by intro S hS B hB tr htr; simp [Tysmall] at hS; subst hS; simp at hB
        subst hB; simp at htr; subst htr; simp)
  exact ⟨h.1, h.2.1, dropMissing_Tysmall⟩

/-- A stand-in for the external PSIS-LOO estimator. -/
noncomputable def psislooStub : Mat → ℝ × List ℝ × List ℝ := fun _ => (0, [], [])

lemma bind_ok {ε α β : Type _} (a : α) (f : α → Except ε β) :
    Bind.bind (Except.ok a) f = f a := rfl

lemma bind_pure {ε α β : Type _} (a : α) (f : α → Except ε β) :
    Bind.bind (pure a : Except ε α) f = f a := rfl

lemma model_comparison_eval (fits : FitStore)
    (psisloo : Mat → ℝ × List ℝ × List ℝ) (a b metric chan : String)
    (e1 e2 : List ℝ)
    (h1 : modelElpd fits psisloo metric chan a = .ok e1)
    (h2 : modelElpd fits psisloo metric chan b = .ok e2)
    (hlen : e1.length = e2.length) :
    model_comparison fits psisloo a b metric chan =
      .ok ((e1.map (fun x => -2 * x)).sum, (e2.map (fun x => -2 * x)).sum,
        Real.sqrt ((e2.map (fun x => -2 * x)).length *
          npVar (List.zipWith (fun x y => x - y)
            (e2.map (fun x => -2 * x)) (e1.map (fun x => -2 * x))))) := by
  have hmap : List.mapM (modelElpd fits psisloo metric chan) [a, b] =
      Except.ok [e1, e2] := by
    rw [List.mapM_cons, List.mapM_cons, List.mapM_nil, h1, h2]
    rfl
  rw [model_comparison, hmap, bind_ok]
  simp only []
  rw [if_pos hlen]
  rfl

/-- C3: when both models' per-observation elpd arrays have length `n`,
`model_comparison` returns each model's sum of −2-scaled elpd values and
the standard error `sqrt(n * var(d₂ - d₁))` of the paired difference of
the −2-scaled arrays. -/
theorem C3_model_comparison_formula (fits : FitStore)
    (psisloo : Mat → ℝ × List ℝ × List ℝ) (a b metric chan : String)
    (e1 e2 : List ℝ) (n : ℕ)
    (h1 : modelElpd fits psisloo metric chan a = .ok e1)
    (h2 : modelElpd fits psisloo metric chan b = .ok e2)
    (hlen1 : e1.length = n) (hlen2 : e2.length = n) :
    model_comparison fits psisloo a b metric chan =
      .ok ((e1.map (fun x => -2 * x)).sum, (e2.map (fun x => -2 * x)).sum,
        Real.sqrt (n * npVar (List.zipWith (fun x y => x - y)
          (e2.map (fun x => -2 * x)) (e1.map (fun x => -2 * x))))) := by
  rw [model_comparison_eval fits psisloo a b metric chan e1 e2 h1 h2
    (hlen1.trans hlen2.symm), List.length_map, hlen2]

/-- Witness for C3: a full concrete run of `model_comparison` on the
one-model store, channel "y", metric "waic". -/
theorem C3_model_comparison_witness :
    model_comparison fits0 psislooStub "mod" "mod" "waic" "y" =
      .ok (((WAIC [[(-1 : ℝ)], [(-1 : ℝ)]]).map (fun x => -2 * x)).sum,
        ((WAIC [[(-1 : ℝ)], [(-1 : ℝ)]]).map (fun x => -2 * x)).sum,
        Real.sqrt ((1 : ℕ) * npVar (List.zipWith (fun x y => x - y)
          ((WAIC [[(-1 : ℝ)], [(-1 : ℝ)]]).map (fun x => -2 * x))
          ((WAIC [[(-1 : ℝ)], [(-1 : ℝ)]]).map (fun x => -2 * x))))) := by
  have hme : modelElpd fits0 psislooStub "waic" "y" "mod" =
      .ok (WAIC [[(-1 : ℝ)], [(-1 : ℝ)]]) := by
    rw [modelElpd, extract_y_eq fits0 "mod" fit0 Tysmall (by simp [fits0])
      (by simp [fit0]), dropMissing_Tysmall]
    simp [pickLogLik, computeMetric, bind, Except.bind, pure, Except.pure]
  exact C3_model_comparison_formula fits0 psislooStub "mod" "mod" "waic" "y" _ _ 1
    hme hme (by simp [WAIC, ncols]) (by simp [WAIC, ncols])

/-- C6: comparing a model against itself with metric "waic" and channel
"both" yields two equal deviance scalars and a standard error of 0. -/
theorem C6_self_comparison (fits : FitStore)
    (psisloo : Mat → ℝ × List ℝ × List ℝ) (name : String) (fit : Fit)
    (Ty Tm : Tensor4) (hf : fits name = some fit)
    (hy : fit "Y_log_lik" = some Ty) (hm : fit "M_log_lik" = some Tm)
    (hlen : Ty.length = Tm.length) :
    ∃ v : ℝ, model_comparison fits psisloo name name "waic" "both" = .ok (v, v, 0) := by
  have hYlen : (dropMissing (reshape2 Ty)).length = Ty.length := by
    simp [dropMissing, reshape2]
  have hMlen : (reshape2 Tm).length = Tm.length := by simp [reshape2]
  have hpick : pickLogLik "both" (some (dropMissing (reshape2 Ty)))
      (some (reshape2 Tm)) =
      .ok (List.zipWith (· ++ ·) (dropMissing (reshape2 Ty)) (reshape2 Tm)) := by
    rw [pickLogLik]
    simp [hYlen, hMlen, hlen]
  have hme : modelElpd fits psisloo "waic" "both" name =
      .ok (WAIC (List.zipWith (· ++ ·) (dropMissing (reshape2 Ty)) (reshape2 Tm))) := by
    rw [modelElpd, extract_both_eq fits name fit Ty Tm hf hy hm]
    simp [hpick, computeMetric, bind, Except.bind, pure, Except.pure]
  refine ⟨((WAIC (List.zipWith (· ++ ·) (dropMissing (reshape2 Ty))
      (reshape2 Tm))).map (fun x => -2 * x)).sum, ?_⟩
  rw [model_comparison_eval fits psisloo name name "waic" "both" _ _ hme hme rfl,
    zipWith_sub_self, npVar_replicate_zero, mul_zero, Real.sqrt_zero]

/-- Witness for C6 on the concrete one-model store. -/
theorem C6_self_comparison_witness :
    ∃ v : ℝ, model_comparison fits0 psislooStub "mod" "mod" "waic" "both" =
      .ok (v, v, 0) :=
  C6_self_comparison fits0 psislooStub "mod" fit0 Tysmall Tmsmall
    (by simp [fits0]) (by simp [fit0]) (by simp [fit0])
    (by simp [Tysmall, Tmsmall])

lemma extract_none_eq (fits : FitStore) (name : String) (fit : Fit)
    (hf : fits name = some fit) (method : String)
    (h1 : method ≠ "y") (h2 : method ≠ "m") (h3 : method ≠ "both") :
    _extract_log_lik fits name method = .ok (none, none) := by
  rw [_extract_log_lik, load_fit, hf]
  rw [bind_ok, if_neg (by simp [h1, h3]), bind_pure]
  simp only []
  rw [if_neg (by simp [h2, h3])]
  rfl

lemma pickLogLik_none (chan : String) (h1 : chan ≠ "y") (h2 : chan ≠ "m") :
    pickLogLik chan none none = .error .invalidArgument := by
  rw [pickLogLik, if_neg h1, if_neg h2]

lemma model_comparison_first_error (fits : FitStore)
    (psisloo : Mat → ℝ × List ℝ × List ℝ) (a b metric chan : String) (e : PyErr)
    (h : modelElpd fits psisloo metric chan a = .error e) :
    model_comparison fits psisloo a b metric chan = .error e := by
  have hmap : List.mapM (modelElpd fits psisloo metric chan) [a, b] =
      .error e := by
    rw [List.mapM_cons, h]
    rfl
  rw [model_comparison, hmap]
  rfl

/-- C4 counterexample: with an invalid metric selector ("bogus") but a fit
store in which the first model fails to load, `model_comparison` fails
with `loadError`, not `invalidArgument` — so the invalid-metric failure is
not raised before array computation is attempted, refuting the claim as
stated. -/
theorem C4_counterexample :
    model_comparison (fun _ => none) psislooStub "a" "b" "bogus" "y" =
      .error .loadError ∧ PyErr.loadError ≠ PyErr.invalidArgument := by
  refine ⟨?_, by decide⟩
  refine model_comparison_first_error _ psislooStub "a" "b" "bogus" "y" _ ?_
  rw [modelElpd, extract_load_fail _ "a" "y" rfl]
  rfl

/-- C4 amended: an unrecognized channel selector (with the first model's
fit loading) or an unrecognized metric selector with any of the valid
channels "y", "m", "both" (with the first model's extraction succeeding)
makes `model_comparison` fail with an `invalidArgument` kind; the failure
is not raised before array computation — extraction runs first, so a
failing load surfaces as `loadError` even when the metric selector is
invalid. -/
theorem C4_amended_invalid_selectors (fits : FitStore)
    (psisloo : Mat → ℝ × List ℝ × List ℝ) (a b metric chan : String) :
    (∀ fit, fits a = some fit → chan ≠ "y" → chan ≠ "m" → chan ≠ "both" →
      model_comparison fits psisloo a b metric chan = .error .invalidArgument) ∧
    (∀ fit Ty, fits a = some fit → fit "Y_log_lik" = some Ty →
      metric ≠ "waic" → metric ≠ "loo" →
      model_comparison fits psisloo a b metric "y" = .error .invalidArgument) ∧
    (∀ fit Tm, fits a = some fit → fit "M_log_lik" = some Tm →
      metric ≠ "waic" → metric ≠ "loo" →
      model_comparison fits psisloo a b metric "m" = .error .invalidArgument) ∧
    (∀ fit Ty Tm, fits a = some fit → fit "Y_log_lik" = some Ty →
      fit "M_log_lik" = some Tm → Ty.length = Tm.length →
      metric ≠ "waic" → metric ≠ "loo" →
      model_comparison fits psisloo a b metric "both" = .error .invalidArgument) ∧
    (fits a = none →
      model_comparison fits psisloo a b metric chan = .error .loadError) := by
  refine ⟨fun fit hf h1 h2 h3 => ?_, fun fit Ty hf hy hw hl => ?_,
    fun fit Tm hf hm hw hl => ?_, fun fit Ty Tm hf hy hm hlen hw hl => ?_,
    fun hf => ?_⟩
  · refine model_comparison_first_error _ psisloo a b metric chan _ ?_
    rw [modelElpd, extract_none_eq fits a fit hf chan h1 h2 h3, bind_ok]
    simp only []
    rw [pickLogLik_none chan h1 h2]
    rfl
  · refine model_comparison_first_error _ psisloo a b metric "y" _ ?_
    rw [modelElpd, extract_y_eq fits a fit Ty hf hy, bind_ok]
    simp only []
    rw [pickLogLik]
    simp only [if_true, reduceIte]
    rw [bind_ok, computeMetric, if_neg hw, if_neg hl]
  · refine model_comparison_first_error _ psisloo a b metric "m" _ ?_
    rw [modelElpd, extract_m_eq fits a fit Tm hf hm, bind_ok]
    simp only []
    rw [pickLogLik]
    simp only [String.reduceEq, reduceIte]
    rw [bind_ok, computeMetric, if_neg hw, if_neg hl]
  · refine model_comparison_first_error _ psisloo a b metric "both" _ ?_
    have hYlen : (dropMissing (reshape2 Ty)).length = Ty.length := by
      simp [dropMissing, reshape2]
    have hMlen : (reshape2 Tm).length = Tm.length := by simp [reshape2]
    have hpick : pickLogLik "both" (some (dropMissing (reshape2 Ty)))
        (some (reshape2 Tm)) =
        .ok (List.zipWith (· ++ ·) (dropMissing (reshape2 Ty)) (reshape2 Tm)) := by
      rw [pickLogLik]
      simp [hYlen, hMlen, hlen]
    rw [modelElpd, extract_both_eq fits a fit Ty Tm hf hy hm, bind_ok]
    simp only []
    rw [hpick, bind_ok, computeMetric, if_neg hw, if_neg hl]
  · exact model_comparison_first_error _ psisloo a b metric chan _
      (by rw [modelElpd, extract_load_fail _ a chan hf]; rfl)

/-- Witness for the amended C4 on concrete selectors and stores, hitting
the invalid-channel case, the invalid-metric case on each valid channel,
and the load-precedence case. -/
theorem C4_amended_witness :
    model_comparison fits0 psislooStub "mod" "mod" "waic" "bogus" =
      .error .invalidArgument ∧
    model_comparison fits0 psislooStub "mod" "mod" "bogus" "y" =
      .error .invalidArgument ∧
    model_comparison fits0 psislooStub "mod" "mod" "bogus" "m" =
      .error .invalidArgument ∧
    model_comparison fits0 psislooStub "mod" "mod" "bogus" "both" =
      .error .invalidArgument ∧
    model_comparison fits0 psislooStub "nope" "mod" "bogus" "y" =
      .error .loadError := by
  refine ⟨(C4_amended_invalid_selectors fits0 psislooStub "mod" "mod" "waic"
      "bogus").1 fit0 (by simp [fits0]) (by decide) (by decide) (by decide),
    (C4_amended_invalid_selectors fits0 psislooStub "mod" "mod" "bogus"
      "y").2.1 fit0 Tysmall (by simp [fits0]) (by simp [fit0]) (by decide)
      (by decide),
    (C4_amended_invalid_selectors fits0 psislooStub "mod" "mod" "bogus"
      "m").2.2.1 fit0 Tmsmall (by simp [fits0]) (by simp [fit0]) (by decide)
      (by decide),
    (C4_amended_invalid_selectors fits0 psislooStub "mod" "mod" "bogus"
      "both").2.2.2.1 fit0 Tysmall Tmsmall (by simp [fits0]) (by simp [fit0])
      (by simp [fit0]) (by simp [Tysmall, Tmsmall]) (by decide) (by decide),
    (C4_amended_invalid_selectors fits0 psislooStub "nope" "mod" "bogus"
      "y").2.2.2.2 (by simp [fits0])⟩

/-! ### HDI lemmas -/

lemma exists_min_mem (l : List ℚ) (h : l ≠ []) : ∃ x ∈ l, ∀ y ∈ l, x ≤ y := by
  induction l with
  | nil => simp at h
  | cons a t ih =>
      cases t with
      | nil => exact ⟨a, by simp, by simp⟩
      | cons b t' =>
          obtain ⟨x, hx, hmin⟩ := ih (by simp)
          by_cases hax : a ≤ x
          · refine ⟨a, by simp, fun y hy => ?_⟩
            rcases List.mem_cons.mp hy with h | h
            · exact h ▸ le_refl a
            · exact le_trans hax (hmin y h)
          · refine ⟨x, List.mem_cons_of_mem a hx, fun y hy => ?_⟩
            rcases List.mem_cons.mp hy with h | h
            · exact h ▸ le_of_not_le hax
            · exact hmin y h

lemma argmin_spec (l : List ℚ) (hne : l ≠ []) :
    argmin l < l.length ∧ ∀ y ∈ l, l.getD (argmin l) 0 ≤ y := by
  obtain ⟨x, hx, hmin⟩ := exists_min_mem l hne
  have hex : ∃ z ∈ l, (fun x => l.all (fun y => decide (x ≤ y))) z = true :=
    ⟨x, hx, by
      simp only [List.all_eq_true, decide_eq_true_eq]
      exact fun y hy => hmin y hy⟩
  have hlt : l.findIdx (fun x => l.all (fun y => decide (x ≤ y))) < l.length :=
    List.findIdx_lt_length_of_exists hex
  rw [argmin]
  refine ⟨hlt, fun y hy => ?_⟩
  rw [List.getD_eq_getElem l 0 hlt]
  have hp := @List.findIdx_getElem _ (fun x => l.all (fun y => decide (x ≤ y))) l hlt
  simp only [List.all_eq_true, decide_eq_true_eq] at hp
  exact hp y hy

lemma sortedPts_sorted (arr : List ℚ) : List.Sorted (· ≤ ·) (sortedPts arr) :=
  List.sorted_mergeSort' arr

lemma sortedPts_perm (arr : List ℚ) : (sortedPts arr).Perm arr :=
  List.mergeSort_perm arr _

lemma sortedPts_length (arr : List ℚ) : (sortedPts arr).length = arr.length :=
  (sortedPts_perm arr).length_eq

lemma sortedPts_getD_mono (arr : List ℚ) (i j : ℕ) (hij : i ≤ j)
    (hj : j < (sortedPts arr).length) :
    (sortedPts arr).getD i 0 ≤ (sortedPts arr).getD j 0 := by
  have hi : i < (sortedPts arr).length := lt_of_le_of_lt hij hj
  rw [List.getD_eq_getElem _ 0 hi, List.getD_eq_getElem _ 0 hj]
  exact (sortedPts_sorted arr).rel_get_of_le (a := ⟨i, hi⟩) (b := ⟨j, hj⟩) hij

lemma sortedPts_getD_mem (arr : List ℚ) (i : ℕ) (hi : i < (sortedPts arr).length) :
    (sortedPts arr).getD i 0 ∈ arr := by
  rw [List.getD_eq_getElem _ 0 hi]
  exact (sortedPts_perm arr).mem_iff.mp (List.getElem_mem hi)

lemma ciWidth_length (arr : List ℚ) (credMass : ℚ) :
    (ciWidth arr credMass).length = (sortedPts arr).length - ciIdxInc arr credMass := by
  simp [ciWidth]

lemma ciWidth_getD (arr : List ℚ) (credMass : ℚ) (i : ℕ)
    (hi : i < (sortedPts arr).length - ciIdxInc arr credMass) :
    (ciWidth arr credMass).getD i 0 =
      (sortedPts arr).getD (i + ciIdxInc arr credMass) 0 - (sortedPts arr).getD i 0 := by
  rw [ciWidth, getD_map_of_lt _ _ _ i (by simpa using hi)]
  simp

/-- C9: with `k = ceil(credMass * n)` satisfying `1 ≤ k ≤ n - 1`,
`HDIofMCMC` returns the pair of order statistics `(sorted[i], sorted[i+k])`
for an index `i` whose window is narrowest among all windows of `k`
consecutive order statistics; both endpoints are sample elements and the
lower endpoint does not exceed the upper. -/
theorem C9_HDI_shortest_interval (arr : List ℚ) (credMass : ℚ)
    (h1 : 1 ≤ ciIdxInc arr credMass)
    (h2 : ciIdxInc arr credMass ≤ arr.length - 1) :
    ∃ i, i + ciIdxInc arr credMass < arr.length ∧
      HDIofMCMC arr credMass =
        ((sortedPts arr).getD i 0,
         (sortedPts arr).getD (i + ciIdxInc arr credMass) 0) ∧
      (∀ j, j + ciIdxInc arr credMass < arr.length →
        (sortedPts arr).getD (i + ciIdxInc arr credMass) 0 -
          (sortedPts arr).getD i 0 ≤
        (sortedPts arr).getD (j + ciIdxInc arr credMass) 0 -
          (sortedPts arr).getD j 0) ∧
      (HDIofMCMC arr credMass).1 ∈ arr ∧
      (HDIofMCMC arr credMass).2 ∈ arr ∧
      (HDIofMCMC arr credMass).1 ≤ (HDIofMCMC arr credMass).2 := by
  set k := ciIdxInc arr credMass with hk
  have hkn : k < arr.length := by omega
  have hslen : (sortedPts arr).length = arr.length := sortedPts_length arr
  have hwlen : (ciWidth arr credMass).length = arr.length - k := by
    rw [ciWidth_length, hslen, hk]
  have hwne : ciWidth arr credMass ≠ [] := by
    intro hempty
    rw [hempty] at hwlen
    simp at hwlen
    omega
  obtain ⟨hamin, hminle⟩ := argmin_spec (ciWidth arr credMass) hwne
  set i := argmin (ciWidth arr credMass) with hi
  have hiw : i < arr.length - k := by rw [← hwlen]; exact hamin
  refine ⟨i, by omega, rfl, fun j hj => ?_, ?_, ?_, ?_⟩
  · have hjw : j < (sortedPts arr).length - k := by rw [hslen]; omega
    have hmem : (ciWidth arr credMass).getD j 0 ∈ ciWidth arr credMass := by
      rw [List.getD_eq_getElem _ 0 (by rw [hwlen]; omega)]
      exact List.getElem_mem _
    have := hminle _ hmem
    rw [ciWidth_getD arr credMass j hjw] at this
    rw [ciWidth_getD arr credMass i (by rw [hslen]; omega)] at this
    exact this
  · exact sortedPts_getD_mem arr i (by rw [hslen]; omega)
  · exact sortedPts_getD_mem arr (i + k) (by rw [hslen]; omega)
  · exact sortedPts_getD_mono arr i (i + k) (by omega) (by rw [hslen]; omega)

lemma ciIdxInc_concrete : ciIdxInc [3, 1, 2, 10] (1/2) = 2 := by
  rw [ciIdxInc]
  have h : ((1 : ℚ)/2 * ((4 : ℕ) : ℚ)) = ((2 : ℕ) : ℚ) := by norm_num
  simp only [List.length_cons, List.length_nil]
  rw [h, Int.ceil_natCast]
  rfl

/-- Witness for C9 on the sample `[3, 1, 2, 10]` with credMass `1/2`:
the window spans 2 order statistics and the narrowest interval is `[1, 3]`. -/
theorem C9_HDI_witness :
    (1 ≤ ciIdxInc [3, 1, 2, 10] (1/2) ∧
      ciIdxInc [3, 1, 2, 10] (1/2) ≤ ([3, 1, 2, 10] : List ℚ).length - 1) ∧
    (∃ i, i + ciIdxInc [3, 1, 2, 10] (1/2) < ([3, 1, 2, 10] : List ℚ).length ∧
      HDIofMCMC [3, 1, 2, 10] (1/2) =
        ((sortedPts [3, 1, 2, 10]).getD i 0,
         (sortedPts [3, 1, 2, 10]).getD (i + ciIdxInc [3, 1, 2, 10] (1/2)) 0) ∧
      (∀ j, j + ciIdxInc [3, 1, 2, 10] (1/2) < ([3, 1, 2, 10] : List ℚ).length →
        (sortedPts [3, 1, 2, 10]).getD (i + ciIdxInc [3, 1, 2, 10] (1/2)) 0 -
          (sortedPts [3, 1, 2, 10]).getD i 0 ≤
        (sortedPts [3, 1, 2, 10]).getD (j + ciIdxInc [3, 1, 2, 10] (1/2)) 0 -
          (sortedPts [3, 1, 2, 10]).getD j 0) ∧
      (HDIofMCMC [3, 1, 2, 10] (1/2)).1 ∈ ([3, 1, 2, 10] : List ℚ) ∧
      (HDIofMCMC [3, 1, 2, 10] (1/2)).2 ∈ ([3, 1, 2, 10] : List ℚ) ∧
      (HDIofMCMC [3, 1, 2, 10] (1/2)).1 ≤ (HDIofMCMC [3, 1, 2, 10] (1/2)).2) :=
  ⟨by simp only [ciIdxInc_concrete]; norm_num,
    C9_HDI_shortest_interval [3, 1, 2, 10] (1/2)
      (by simp only [ciIdxInc_concrete]; norm_num)
      (by simp only [ciIdxInc_concrete]; norm_num)⟩

end MoodRL
